import Mathlib

/-!
Verification development for the message-lifecycle tracking and cleanup engine
of ArkanisBot (`src/utils/chat_cleaner.py`).

The Python module is shallowly embedded below: the per-user slice of the
engine's dictionaries becomes `UserState`, Python dicts become insertion-ordered
association lists with unique keys, the transport bridge becomes an explicit
list of per-batch outcomes, and `asyncio` suspensions are accounted for with an
explicit elapsed-time counter (`asyncio.timeout` fires when the deadline passes
during a suspension).  Redis persistence is modelled as disabled
(`redis_manager.enabled == False`), which turns every persistence branch of the
Python code into a no-op; none of the verified properties concern the Redis
bridge except the serialization round trip, which is modelled directly on
`to_dict` / `from_dict`.
-/

set_option linter.unusedVariables false

namespace ArkanisBot

/-- `MessageContext` enum of chat_cleaner.py: context/type of each tracked message. -/
inductive MessageContext where
  | AUTH
  | MENU
  | COMMAND
  | SYSTEM
  | TEMP
deriving DecidableEq, Repr

/-- Open key-value metadata bag (`Dict[str, Any]`), opaque to the engine. -/
abbrev Metadata := List (String × String)

/-- `MessageTracker` dataclass: state and context of one tracked message. -/
structure MessageTracker where
  message_id : Nat
  context : MessageContext
  chat_id : Int
  timestamp : Nat
  weak_ref : Option Nat := none
  metadata : Metadata := []
deriving DecidableEq, Repr

/-- Name of a context value, as Python's `self.context.name` used by `to_dict`. -/
def MessageContext.pyName : MessageContext → String
  | .AUTH => "AUTH"
  | .MENU => "MENU"
  | .COMMAND => "COMMAND"
  | .SYSTEM => "SYSTEM"
  | .TEMP => "TEMP"

/-- Lookup `MessageContext[name]`; `none` models the `KeyError` raised on an unknown name. -/
def MessageContext.ofPyName (s : String) : Option MessageContext :=
  if s = "AUTH" then some .AUTH
  else if s = "MENU" then some .MENU
  else if s = "COMMAND" then some .COMMAND
  else if s = "SYSTEM" then some .SYSTEM
  else if s = "TEMP" then some .TEMP
  else none

/-- Dictionary produced by `MessageTracker.to_dict` (the serialized snapshot entry).
The `metadata` key is optional because `from_dict` reads it with `data.get('metadata', {})`. -/
structure TrackerDict where
  message_id : Nat
  context : String
  chat_id : Int
  timestamp : Nat
  metadata : Option Metadata
deriving DecidableEq, Repr

/-- `MessageTracker.to_dict`: convert tracker to a dictionary for Redis storage.
The `weak_ref` field is not serialized. -/
def MessageTracker.to_dict (t : MessageTracker) : TrackerDict :=
  { message_id := t.message_id
    context := t.context.pyName
    chat_id := t.chat_id
    timestamp := t.timestamp
    metadata := some t.metadata }

/-- `MessageTracker.from_dict`: create a tracker from a stored dictionary; `none`
models the `KeyError` from `MessageContext[data['context']]` on an unknown name. -/
def MessageTracker.from_dict (d : TrackerDict) : Option MessageTracker :=
  (MessageContext.ofPyName d.context).map fun c =>
    { message_id := d.message_id
      context := c
      chat_id := d.chat_id
      timestamp := d.timestamp
      weak_ref := none
      metadata := d.metadata.getD [] }

/-- Per-user tracked-message dict `self._messages[user_id]`: an insertion-ordered
association list keyed uniquely by message id, as a Python dict is. -/
abbrev MsgMap := List (Nat × MessageTracker)

/-- Python dict assignment `m[k] = v`: replaces the value in place when the key
exists (keeping its position), else appends at the end. -/
def dictInsert (k : Nat) (v : MessageTracker) : MsgMap → MsgMap
  | [] => [(k, v)]
  | (k', v') :: rest => if k' = k then (k, v) :: rest else (k', v') :: dictInsert k v rest

/-- Python `del m[k]`; removes the first (for a dict: only) entry with key `k`. -/
def dictRemove (k : Nat) : MsgMap → MsgMap
  | [] => []
  | (k', v') :: rest => if k' = k then rest else (k', v') :: dictRemove k rest

/-- Python `m.get(k)`. -/
def dictLookup (k : Nat) : MsgMap → Option MessageTracker
  | [] => none
  | (k', v') :: rest => if k' = k then some v' else dictLookup k rest

/-- Keys of the map, in insertion order. -/
def keysOf (m : MsgMap) : List Nat := m.map Prod.fst

/-- Per-user slice of the `ChatCleaner` dictionaries `_messages`, `_current_menu`
and `_last_activity`; `none` in a field models "user_id is not a key of that dict". -/
structure UserState where
  messagesRow : Option MsgMap
  current_menu : Option Nat
  last_activity : Option Nat
deriving DecidableEq, Repr

/-- State of a user the engine has never seen. -/
def emptyUser : UserState := ⟨none, none, none⟩

/-- Ordering used by `sorted(self._messages[user_id].items(), key=lambda x: x[1].timestamp)`. -/
def tsLE (a b : Nat × MessageTracker) : Prop := a.2.timestamp ≤ b.2.timestamp

instance : DecidableRel tsLE := fun a b =>
  inferInstanceAs (Decidable (a.2.timestamp ≤ b.2.timestamp))

instance : IsTotal (Nat × MessageTracker) tsLE :=
  ⟨fun a b => Nat.le_total a.2.timestamp b.2.timestamp⟩

instance : IsTrans (Nat × MessageTracker) tsLE :=
  ⟨fun a b c => Nat.le_trans⟩

/-- `ChatCleaner._prune_old_messages`: sort the user's trackers by timestamp
(Python's `sorted` is stable; so is insertion sort) and delete the first
`len - MAX_TRACKED_MESSAGES` of them from the dict when that count is positive.
The second component records the transport delete calls issued by this routine:
there are none — pruning only drops tracking records. -/
def pruneOldMessages (maxTracked : Nat) (m : MsgMap) : MsgMap × List (List Nat) :=
  let sortedMsgs := List.insertionSort tsLE m
  let toRemove := sortedMsgs.length - maxTracked
  if 0 < toRemove then
    ((sortedMsgs.take toRemove).foldl (fun acc p => dictRemove p.1 acc) m, [])
  else (m, [])

/-- Fire-and-forget task created by `track_message` via `asyncio.create_task`. -/
inductive Cascade where
  | menuClean (chat_id : Int)
  | commandClean (chat_id : Int) (message_id : Nat)
deriving DecidableEq, Repr

/-- Arguments of one `track_message` call: the clock reading at the call, the
message handle (`message.id`, `message.chat_id`), the context and the metadata. -/
structure TrackEvent where
  now : Nat
  msgId : Nat
  chatId : Int
  ctx : MessageContext
  md : Metadata
deriving DecidableEq, Repr

/-- The `MessageTracker` built at the top of `track_message`; `weak_ref` holds
`weakref.ref(message)`, modelled as a handle carrying the message id. -/
def mkTracker (e : TrackEvent) : MessageTracker :=
  { message_id := e.msgId
    context := e.ctx
    chat_id := e.chatId
    timestamp := e.now
    weak_ref := some e.msgId
    metadata := e.md }

/-- `ChatCleaner.track_message` with Redis disabled, as its effect on one user's
state.  Returns the new state together with the cascade tasks it created:
for `MENU` it snapshots the old `_current_menu` entry, installs the new one, and
schedules a `{MENU}`-filtered `clean_messages` whenever the old value was truthy
(`if old_menu:`); for `COMMAND` it always schedules the delayed single-id cleanup.
The cap check `len > MAX_TRACKED_MESSAGES` then triggers `_prune_old_messages`. -/
def track_message (maxTracked : Nat) (u : UserState) (e : TrackEvent) :
    UserState × List Cascade :=
  let msgs0 := u.messagesRow.getD []
  let msgs1 := dictInsert e.msgId (mkTracker e) msgs0
  let menuCascade : List Cascade :=
    if e.ctx = MessageContext.MENU then
      match u.current_menu with
      | some oldMenu => if oldMenu ≠ 0 then [Cascade.menuClean e.chatId] else []
      | none => []
    else []
  let commandCascade : List Cascade :=
    if e.ctx = MessageContext.COMMAND then [Cascade.commandClean e.chatId e.msgId] else []
  let newMenu := if e.ctx = MessageContext.MENU then some e.msgId else u.current_menu
  let msgs2 := if maxTracked < msgs1.length then (pruneOldMessages maxTracked msgs1).1 else msgs1
  ({ messagesRow := some msgs2, current_menu := newMenu, last_activity := some e.now },
   menuCascade ++ commandCascade)

/-- A sequence of `track_message` calls for one user, applied in order. -/
def runTrack (maxTracked : Nat) (u : UserState) (evs : List TrackEvent) : UserState :=
  evs.foldl (fun s e => (track_message maxTracked s e).1) u

/-- Number of tracked messages for the user (`len(self._messages[user_id])`, 0 when absent). -/
def trackedCount (u : UserState) : Nat := (u.messagesRow.getD []).length

/-- Message id of the last `MENU`-context call in a sequence, if any. -/
def lastMenuId (evs : List TrackEvent) : Option Nat :=
  ((evs.filter (fun e => decide (e.ctx = MessageContext.MENU))).getLast?).map (·.msgId)

/-- Python `set.add` on a set represented as a duplicate-free list in insertion order. -/
def setAdd (s : List Nat) (x : Nat) : List Nat := if x ∈ s then s else s ++ [x]

/-- Python `set.update`. -/
def setUnion (s : List Nat) (t : List Nat) : List Nat := t.foldl setAdd s

/-- Python `set.remove` (the caller guards membership). -/
def setRemove (s : List Nat) (x : Nat) : List Nat := s.filter (fun y => decide (y ≠ x))

/-- Deletion-set computation of `ChatCleaner._do_clean_messages`:
`to_delete = message_ids ∪ {tracked ids whose context is in context_filter}`, then
`current_menu` (read only when `exclude_current_menu`) is removed when truthy and
present (`if current_menu and current_menu in to_delete`).  Python truthiness of the
optional filters is emptiness, since `None` and the empty set are both falsy. -/
def computeDeletionSet (u : UserState) (contextFilter : List MessageContext)
    (messageIds : List Nat) (excludeCurrentMenu : Bool) : List Nat :=
  let currentMenu : Option Nat := if excludeCurrentMenu then u.current_menu else none
  let d0 : List Nat := []
  let d1 := if messageIds.isEmpty then d0 else setUnion d0 messageIds
  let d2 :=
    if ¬contextFilter.isEmpty ∧ u.messagesRow.isSome then
      setUnion d1 (((u.messagesRow.getD []).filter
        (fun p => decide (p.2.context ∈ contextFilter))).map Prod.fst)
    else d1
  match currentMenu with
  | some cm => if cm ≠ 0 ∧ cm ∈ d2 then setRemove d2 cm else d2
  | none => d2

/-- Outcome of one `client.delete_messages` transport call, following the
`except` clauses of `_do_clean_messages`. -/
inductive DeleteOutcome where
  | success
  | forbidden
  | invalidId
  | rateLimited (seconds : Nat)
  | otherError
deriving DecidableEq, Repr

/-- Python batching `[ids[i:i+B] for i in range(0, len(ids), B)]`, with fuel for termination. -/
def chunksAux (size : Nat) : Nat → List Nat → List (List Nat)
  | 0, _ => []
  | _, [] => []
  | fuel + 1, l => l.take size :: chunksAux size fuel (l.drop size)

/-- Split a deletion set into transport batches of at most `size` ids. -/
def chunks (size : Nat) (l : List Nat) : List (List Nat) := chunksAux size l.length l

/-- Result of the batch loop: the user's message dict, the batches for which a
transport delete call was issued, the elapsed time, and whether the enclosing
`asyncio.timeout` cancelled the pass. -/
structure PassResult where
  msgs : Option MsgMap
  sent : List (List Nat)
  elapsed : Nat
  cancelled : Bool
deriving DecidableEq, Repr

/-- Batch loop of `_do_clean_messages` under the enclosing `asyncio.timeout(LOCK_TIMEOUT)`.
One outcome is consumed per transport call.  On success the batch's trackers are
deleted from the dict; on forbidden / invalid-id / generic error the loop only logs
and continues, leaving tracking untouched; on `FloodWaitError(n)` the coroutine
sleeps `n` seconds — and is cancelled mid-sleep when the timeout's deadline passes. -/
def runBatches (deadline : Nat) :
    Option MsgMap → Nat → List (List Nat) → List DeleteOutcome → PassResult
  | msgs, elapsed, [], _ => ⟨msgs, [], elapsed, false⟩
  | msgs, elapsed, b :: rest, outs =>
    match outs.headD DeleteOutcome.success with
    | DeleteOutcome.success =>
      let msgs1 := msgs.map (fun m => b.foldl (fun acc i => dictRemove i acc) m)
      let r := runBatches deadline msgs1 elapsed rest (outs.drop 1)
      ⟨r.msgs, b :: r.sent, r.elapsed, r.cancelled⟩
    | DeleteOutcome.forbidden =>
      let r := runBatches deadline msgs elapsed rest (outs.drop 1)
      ⟨r.msgs, b :: r.sent, r.elapsed, r.cancelled⟩
    | DeleteOutcome.invalidId =>
      let r := runBatches deadline msgs elapsed rest (outs.drop 1)
      ⟨r.msgs, b :: r.sent, r.elapsed, r.cancelled⟩
    | DeleteOutcome.otherError =>
      let r := runBatches deadline msgs elapsed rest (outs.drop 1)
      ⟨r.msgs, b :: r.sent, r.elapsed, r.cancelled⟩
    | DeleteOutcome.rateLimited n =>
      if deadline < elapsed + n then ⟨msgs, [b], deadline, true⟩
      else
        let r := runBatches deadline msgs (elapsed + n) rest (outs.drop 1)
        ⟨r.msgs, b :: r.sent, r.elapsed, r.cancelled⟩

/-- Observable result of one `clean_messages` call. -/
structure CleanResult where
  u : UserState
  sent : List (List Nat)
  lockTaken : Bool
  timedOut : Bool
deriving DecidableEq, Repr

/-- `ChatCleaner.clean_messages` with Redis disabled and `debug_mode == False`.
`asyncio.timeout(LOCK_TIMEOUT)` encloses both the `async with lock` acquisition and
the whole `_do_clean_messages` pass.  `lockWait` is the time until the per-user
lock becomes free: when it reaches the timeout the pass is abandoned without the
lock; otherwise the lock is acquired and the deletion set is computed (and, when
empty, the pass returns) while holding it. -/
def clean_messages (lockTimeout batchSize : Nat) (lockWait : Nat) (u : UserState)
    (contextFilter : List MessageContext) (messageIds : List Nat)
    (excludeCurrentMenu : Bool) (outcomes : List DeleteOutcome) : CleanResult :=
  if lockTimeout ≤ lockWait then
    { u := u, sent := [], lockTaken := false, timedOut := true }
  else
    let ds := computeDeletionSet u contextFilter messageIds excludeCurrentMenu
    if ds.isEmpty then
      { u := u, sent := [], lockTaken := true, timedOut := false }
    else
      let r := runBatches lockTimeout u.messagesRow lockWait (chunks batchSize ds) outcomes
      { u := { u with messagesRow := r.msgs }, sent := r.sent, lockTaken := true,
        timedOut := r.cancelled }

/-- Global dictionaries of `ChatCleaner` touched by the inactivity sweep. -/
structure GlobalState where
  messages : List (Nat × MsgMap)
  current_menu : List (Nat × Nat)
  auth_state : List (Nat × Bool)
  last_activity : List (Nat × Nat)
  cleanup_locks : List Nat
  redisKeys : List Nat
deriving DecidableEq, Repr

/-- Python `dict.pop(k, None)` on a generic map. -/
def popKey {β : Type} (k : Nat) (m : List (Nat × β)) : List (Nat × β) :=
  m.filter (fun p => decide (p.1 ≠ k))

/-- `ChatCleaner.clear_user_data`: acquires `self._state_lock` and pops every
per-user dict entry, then deletes the Redis key.  `asyncio.Lock` is not reentrant,
so when the calling coroutine already holds the state lock the `async with`
suspends forever; `none` models that the coroutine never resumes. -/
def clear_user_data (stateLockHeld : Bool) (g : GlobalState) (uid : Nat) :
    Option GlobalState :=
  if stateLockHeld then none
  else some
    { messages := popKey uid g.messages
      current_menu := popKey uid g.current_menu
      auth_state := popKey uid g.auth_state
      last_activity := popKey uid g.last_activity
      cleanup_locks := g.cleanup_locks.filter (fun x => decide (x ≠ uid))
      redisKeys := g.redisKeys.filter (fun x => decide (x ≠ uid)) }

/-- `ChatCleaner._cleanup_inactive_users`: under `self._state_lock`, computes the
users whose `last_activity` is older than `now - INACTIVE_THRESHOLD`, then — still
holding the state lock — awaits `clear_user_data` for each of them in turn. -/
def cleanupInactiveUsers (now thresholdSecs : Nat) (g : GlobalState) :
    Option GlobalState :=
  let inactiveThreshold := now - thresholdSecs
  let inactive := (g.last_activity.filter
    (fun p => decide (p.2 < inactiveThreshold))).map Prod.fst
  inactive.foldlM (fun st uid => clear_user_data true st uid) g

/-- Default `self.MAX_TRACKED_MESSAGES`. -/
def MAX_TRACKED_MESSAGES : Nat := 100

/-- Default `self.DELETION_BATCH_SIZE`. -/
def DELETION_BATCH_SIZE : Nat := 50

/-- Default `self.LOCK_TIMEOUT` in seconds. -/
def LOCK_TIMEOUT : Nat := 3

/-- Default `self.INACTIVE_THRESHOLD` in seconds (1 hour). -/
def INACTIVE_THRESHOLD_SECONDS : Nat := 3600

/-- Iterated `del m[k]` over a list of keys, as the pruning loop performs it. -/
def removeAll (ks : List Nat) (m : MsgMap) : MsgMap :=
  ks.foldl (fun acc k => dictRemove k acc) m

/-! ### Lemmas about the dictionary model -/

theorem keysOf_cons (p : Nat × MessageTracker) (m : MsgMap) :
    keysOf (p :: m) = p.1 :: keysOf m := rfl

theorem mem_keysOf {k : Nat} {m : MsgMap} : k ∈ keysOf m ↔ ∃ p ∈ m, p.1 = k := by
  simp [keysOf, List.mem_map]

theorem keysOf_dictInsert (k : Nat) (v : MessageTracker) (m : MsgMap) :
    keysOf (dictInsert k v m) = if k ∈ keysOf m then keysOf m else keysOf m ++ [k] := by
  induction m with
  | nil => simp [dictInsert, keysOf]
  | cons p rest ih =>
    obtain ⟨k', v'⟩ := p
    by_cases hk : k' = k
    · subst hk
      simp [dictInsert, keysOf]
    · simp only [dictInsert, if_neg hk, keysOf_cons, ih]
      by_cases hmem : k ∈ keysOf rest
      · rw [if_pos hmem, if_pos (List.mem_cons_of_mem _ hmem)]
      · rw [if_neg hmem, if_neg (fun hcon => by
          rcases List.mem_cons.1 hcon with rfl | hcon'
          · exact hk rfl
          · exact hmem hcon')]
        rfl

theorem length_dictInsert (k : Nat) (v : MessageTracker) (m : MsgMap) :
    (dictInsert k v m).length = if k ∈ keysOf m then m.length else m.length + 1 := by
  have h1 : (dictInsert k v m).length = (keysOf (dictInsert k v m)).length :=
    (List.length_map _ _).symm
  have h2 : (keysOf m).length = m.length := List.length_map _ _
  rw [h1, keysOf_dictInsert]
  by_cases hmem : k ∈ keysOf m <;> simp [hmem, h2]

theorem nodup_keysOf_dictInsert {k : Nat} {v : MessageTracker} {m : MsgMap}
    (h : (keysOf m).Nodup) : (keysOf (dictInsert k v m)).Nodup := by
  rw [keysOf_dictInsert]
  by_cases hmem : k ∈ keysOf m
  · simpa [hmem]
  · simp [hmem, List.nodup_append, h]

theorem dictLookup_dictInsert_self (k : Nat) (v : MessageTracker) (m : MsgMap) :
    dictLookup k (dictInsert k v m) = some v := by
  induction m with
  | nil => simp [dictInsert, dictLookup]
  | cons p rest ih =>
    obtain ⟨k', v'⟩ := p
    by_cases hk : k' = k <;> simp [dictInsert, dictLookup, hk, ih]

theorem dictRemove_sublist (k : Nat) (m : MsgMap) : (dictRemove k m).Sublist m := by
  induction m with
  | nil => simp [dictRemove]
  | cons p rest ih =>
    obtain ⟨k', v'⟩ := p
    by_cases hk : k' = k
    · simp only [dictRemove, if_pos hk]
      exact List.sublist_cons_self _ _
    · simp only [dictRemove, if_neg hk]
      exact ih.cons₂ _

theorem nodup_keysOf_dictRemove {k : Nat} {m : MsgMap} (h : (keysOf m).Nodup) :
    (keysOf (dictRemove k m)).Nodup :=
  h.sublist ((dictRemove_sublist k m).map Prod.fst)

theorem mem_dictRemove {k : Nat} {m : MsgMap} (h : (keysOf m).Nodup)
    (p : Nat × MessageTracker) : p ∈ dictRemove k m ↔ p ∈ m ∧ p.1 ≠ k := by
  induction m with
  | nil => simp [dictRemove]
  | cons q rest ih =>
    obtain ⟨k', v'⟩ := q
    have hq : k' ∉ keysOf rest ∧ (keysOf rest).Nodup := by
      simpa [keysOf_cons, List.nodup_cons] using h
    by_cases hk : k' = k
    · subst hk
      simp only [dictRemove, if_pos rfl]
      constructor
      · intro hp
        refine ⟨List.mem_cons_of_mem _ hp, fun hpk => hq.1 ?_⟩
        exact mem_keysOf.2 ⟨p, hp, hpk⟩
      · rintro ⟨hp, hpk⟩
        rcases List.mem_cons.1 hp with rfl | hp'
        · exact absurd rfl hpk
        · exact hp'
    · simp only [dictRemove, if_neg hk, List.mem_cons, ih hq.2]
      constructor
      · rintro (rfl | ⟨hp, hpk⟩)
        · exact ⟨Or.inl rfl, hk⟩
        · exact ⟨Or.inr hp, hpk⟩
      · rintro ⟨rfl | hp, hpk⟩
        · exact Or.inl rfl
        · exact Or.inr ⟨hp, hpk⟩

theorem length_dictRemove {k : Nat} {m : MsgMap} (hmem : k ∈ keysOf m) :
    (dictRemove k m).length + 1 = m.length := by
  induction m with
  | nil => simp [keysOf] at hmem
  | cons q rest ih =>
    obtain ⟨k', v'⟩ := q
    by_cases hk : k' = k
    · simp [dictRemove, hk]
    · have hmem' : k ∈ keysOf rest := by
        rcases List.mem_cons.1 (by simpa [keysOf_cons] using hmem) with h | h
        · exact absurd h.symm hk
        · exact h
      simp only [dictRemove, if_neg hk, List.length_cons]
      rw [← ih hmem']

theorem removeAll_cons (k : Nat) (ks : List Nat) (m : MsgMap) :
    removeAll (k :: ks) m = removeAll ks (dictRemove k m) := rfl

theorem foldl_pairs_eq_removeAll (l : List (Nat × MessageTracker)) (m : MsgMap) :
    l.foldl (fun acc p => dictRemove p.1 acc) m = removeAll (l.map Prod.fst) m := by
  rw [removeAll, List.foldl_map]

theorem nodup_keysOf_removeAll {ks : List Nat} {m : MsgMap} (h : (keysOf m).Nodup) :
    (keysOf (removeAll ks m)).Nodup := by
  induction ks generalizing m with
  | nil => simpa [removeAll]
  | cons k ks ih =>
    rw [removeAll_cons]
    exact ih (nodup_keysOf_dictRemove h)

theorem mem_removeAll {ks : List Nat} {m : MsgMap} (h : (keysOf m).Nodup)
    (p : Nat × MessageTracker) : p ∈ removeAll ks m ↔ p ∈ m ∧ p.1 ∉ ks := by
  induction ks generalizing m with
  | nil => simp [removeAll]
  | cons k ks ih =>
    rw [removeAll_cons, ih (nodup_keysOf_dictRemove h), mem_dictRemove h]
    simp only [List.mem_cons, not_or]
    tauto

theorem length_removeAll {ks : List Nat} {m : MsgMap} (h : (keysOf m).Nodup)
    (hnd : ks.Nodup) (hsub : ∀ k ∈ ks, k ∈ keysOf m) :
    (removeAll ks m).length + ks.length = m.length := by
  induction ks generalizing m with
  | nil => simp [removeAll]
  | cons k ks ih =>
    rw [removeAll_cons]
    have hk : k ∈ keysOf m := hsub k (List.mem_cons_self _ _)
    have hknotin : k ∉ ks := (List.nodup_cons.1 hnd).1
    have hsub' : ∀ k' ∈ ks, k' ∈ keysOf (dictRemove k m) := by
      intro k' hk'
      obtain ⟨p, hp, hpk⟩ := mem_keysOf.1 (hsub k' (List.mem_cons_of_mem _ hk'))
      refine mem_keysOf.2 ⟨p, (mem_dictRemove h p).2 ⟨hp, ?_⟩, hpk⟩
      rw [hpk]
      rintro rfl
      exact hknotin hk'
    have hrec := ih (nodup_keysOf_dictRemove h) (List.nodup_cons.1 hnd).2 hsub'
    have hlen := length_dictRemove hk
    simp only [List.length_cons]
    omega

/-! ### Lemmas about the eviction routine -/

theorem pruneOldMessages_eq (cap : Nat) (m : MsgMap) (hlen : cap < m.length) :
    pruneOldMessages cap m =
      (removeAll (keysOf ((List.insertionSort tsLE m).take (m.length - cap))) m, []) := by
  have hs : (List.insertionSort tsLE m).length = m.length :=
    (List.perm_insertionSort tsLE m).length_eq
  unfold pruneOldMessages
  simp only [hs]
  rw [if_pos (by omega)]
  rw [foldl_pairs_eq_removeAll]
  rfl

theorem nodup_keysOf_sorted {m : MsgMap} (h : (keysOf m).Nodup) :
    (keysOf (List.insertionSort tsLE m)).Nodup := by
  have hperm : List.Perm (keysOf (List.insertionSort tsLE m)) (keysOf m) :=
    (List.perm_insertionSort tsLE m).map Prod.fst
  exact hperm.nodup_iff.2 h

theorem take_keys_facts (cap : Nat) (m : MsgMap) (hkeys : (keysOf m).Nodup)
    (hlen : cap < m.length) :
    (keysOf ((List.insertionSort tsLE m).take (m.length - cap))).Nodup ∧
    (∀ k ∈ keysOf ((List.insertionSort tsLE m).take (m.length - cap)), k ∈ keysOf m) ∧
    (keysOf ((List.insertionSort tsLE m).take (m.length - cap))).length = m.length - cap := by
  have hperm := List.perm_insertionSort tsLE m
  have hsnodup : (keysOf (List.insertionSort tsLE m)).Nodup := nodup_keysOf_sorted hkeys
  have htake : keysOf ((List.insertionSort tsLE m).take (m.length - cap)) =
      (keysOf (List.insertionSort tsLE m)).take (m.length - cap) :=
    List.map_take _ _ _
  refine ⟨?_, ?_, ?_⟩
  · rw [htake]
    exact hsnodup.sublist (List.take_sublist _ _)
  · intro k hkmem
    rw [htake] at hkmem
    have : k ∈ keysOf (List.insertionSort tsLE m) := List.mem_of_mem_take hkmem
    exact (hperm.map Prod.fst).mem_iff.1 this
  · rw [htake, List.length_take]
    have hs : (keysOf (List.insertionSort tsLE m)).length = m.length := by
      rw [keysOf, List.length_map]
      exact hperm.length_eq
    omega

theorem pruneOldMessages_length (cap : Nat) (m : MsgMap) (hkeys : (keysOf m).Nodup)
    (hlen : cap < m.length) : (pruneOldMessages cap m).1.length = cap := by
  obtain ⟨hnd, hsub, hl⟩ := take_keys_facts cap m hkeys hlen
  rw [pruneOldMessages_eq cap m hlen]
  show (removeAll (keysOf ((List.insertionSort tsLE m).take (m.length - cap))) m).length = cap
  have := length_removeAll hkeys hnd hsub
  rw [hl] at this
  omega

theorem pruneOldMessages_mem (cap : Nat) (m : MsgMap) (hkeys : (keysOf m).Nodup)
    (hlen : cap < m.length) (p : Nat × MessageTracker) :
    p ∈ (pruneOldMessages cap m).1 ↔
      p ∈ m ∧ p.1 ∉ keysOf ((List.insertionSort tsLE m).take (m.length - cap)) := by
  rw [pruneOldMessages_eq cap m hlen]
  exact mem_removeAll hkeys p

theorem nodup_keysOf_prune {cap : Nat} {m : MsgMap} (hkeys : (keysOf m).Nodup)
    (hlen : cap < m.length) : (keysOf (pruneOldMessages cap m).1).Nodup := by
  rw [pruneOldMessages_eq cap m hlen]
  exact nodup_keysOf_removeAll hkeys

/-! ### Lemmas about tracking -/

theorem track_message_messagesRow (cap : Nat) (u : UserState) (e : TrackEvent) :
    ((track_message cap u e).1).messagesRow =
      some (if cap < (dictInsert e.msgId (mkTracker e) (u.messagesRow.getD [])).length
            then (pruneOldMessages cap
              (dictInsert e.msgId (mkTracker e) (u.messagesRow.getD []))).1
            else dictInsert e.msgId (mkTracker e) (u.messagesRow.getD [])) := rfl

theorem track_message_current_menu (cap : Nat) (u : UserState) (e : TrackEvent) :
    ((track_message cap u e).1).current_menu =
      if e.ctx = MessageContext.MENU then some e.msgId else u.current_menu := rfl

theorem track_message_step (cap : Nat) (u : UserState) (e : TrackEvent)
    (h : (keysOf (u.messagesRow.getD [])).Nodup) :
    trackedCount (track_message cap u e).1 ≤ cap ∧
    (keysOf (((track_message cap u e).1).messagesRow.getD [])).Nodup := by
  have hnd1 : (keysOf (dictInsert e.msgId (mkTracker e) (u.messagesRow.getD []))).Nodup :=
    nodup_keysOf_dictInsert h
  unfold trackedCount
  rw [track_message_messagesRow]
  by_cases hc : cap < (dictInsert e.msgId (mkTracker e) (u.messagesRow.getD [])).length
  · rw [if_pos hc]
    exact ⟨by simp [pruneOldMessages_length cap _ hnd1 hc],
      by simpa using nodup_keysOf_prune hnd1 hc⟩
  · rw [if_neg hc]
    exact ⟨by simpa using Nat.le_of_not_lt hc, by simpa using hnd1⟩

theorem runTrack_cons (cap : Nat) (u : UserState) (e : TrackEvent) (evs : List TrackEvent) :
    runTrack cap u (e :: evs) = runTrack cap ((track_message cap u e).1) evs := rfl

theorem runTrack_append_single (cap : Nat) (u : UserState) (evs : List TrackEvent)
    (e : TrackEvent) :
    runTrack cap u (evs ++ [e]) = (track_message cap (runTrack cap u evs) e).1 := by
  simp [runTrack, List.foldl_append]

theorem runTrack_nodup (cap : Nat) (evs : List TrackEvent) : ∀ u : UserState,
    (keysOf (u.messagesRow.getD [])).Nodup →
    (keysOf ((runTrack cap u evs).messagesRow.getD [])).Nodup := by
  induction evs with
  | nil => intro u h; exact h
  | cons e evs ih =>
    intro u h
    rw [runTrack_cons]
    exact ih _ (track_message_step cap u e h).2

theorem runTrack_count_le (cap : Nat) (evs : List TrackEvent) : ∀ u : UserState,
    (keysOf (u.messagesRow.getD [])).Nodup → trackedCount u ≤ cap →
    trackedCount (runTrack cap u evs) ≤ cap := by
  induction evs with
  | nil => intro u _ h0; exact h0
  | cons e evs ih =>
    intro u h h0
    rw [runTrack_cons]
    exact ih _ (track_message_step cap u e h).2 (track_message_step cap u e h).1

theorem emptyUser_nodup : (keysOf (emptyUser.messagesRow.getD [])).Nodup := by
  simp [emptyUser, keysOf]

theorem lastMenuId_cons (e : TrackEvent) (evs : List TrackEvent) :
    lastMenuId (e :: evs) =
      if e.ctx = MessageContext.MENU then (lastMenuId evs).or (some e.msgId)
      else lastMenuId evs := by
  unfold lastMenuId
  rw [List.filter_cons]
  by_cases hctx : e.ctx = MessageContext.MENU
  · rw [if_pos (by simp [hctx]), if_pos hctx]
    cases hf : evs.filter (fun ev => decide (ev.ctx = MessageContext.MENU)) with
    | nil => simp
    | cons x xs =>
      rw [List.getLast?_cons_cons]
      cases hg : (x :: xs).getLast? with
      | none => simp [List.getLast?_eq_none_iff] at hg
      | some a => simp
  · rw [if_neg (by simp [hctx]), if_neg hctx]

theorem runTrack_current_menu (cap : Nat) (evs : List TrackEvent) : ∀ u : UserState,
    (runTrack cap u evs).current_menu = (lastMenuId evs).or u.current_menu := by
  induction evs with
  | nil => intro u; simp [runTrack, lastMenuId]
  | cons e evs ih =>
    intro u
    rw [runTrack_cons, ih, track_message_current_menu, lastMenuId_cons]
    by_cases hctx : e.ctx = MessageContext.MENU
    · rw [if_pos hctx, if_pos hctx]
      cases hl : lastMenuId evs <;> simp
    · rw [if_neg hctx, if_neg hctx]

/-! ### Lemmas about the cleanup pass -/

theorem mem_setRemove_self (s : List Nat) (x : Nat) : x ∉ setRemove s x := by
  simp [setRemove]

theorem not_mem_menuRemoval (s : List Nat) (cm : Nat) (h : cm ≠ 0) :
    cm ∉ (if cm ≠ 0 ∧ cm ∈ s then setRemove s cm else s) := by
  by_cases hm : cm ∈ s
  · rw [if_pos ⟨h, hm⟩]
    exact mem_setRemove_self s cm
  · rw [if_neg (fun hc => hm hc.2)]
    exact hm

theorem computeDeletionSet_not_mem_menu (u : UserState) (cf : List MessageContext)
    (ids : List Nat) (cm : Nat) (hmenu : u.current_menu = some cm) (h0 : cm ≠ 0) :
    cm ∉ computeDeletionSet u cf ids true := by
  simp only [computeDeletionSet, hmenu, if_true]
  exact not_mem_menuRemoval _ cm h0

theorem runBatches_no_success (deadline : Nat) (batches : List (List Nat)) :
    ∀ (msgs : Option MsgMap) (elapsed : Nat) (outs : List DeleteOutcome),
    (∀ o ∈ outs, o = DeleteOutcome.forbidden ∨ o = DeleteOutcome.invalidId) →
    batches.length ≤ outs.length →
    runBatches deadline msgs elapsed batches outs = ⟨msgs, batches, elapsed, false⟩ := by
  induction batches with
  | nil => intro msgs elapsed outs _ _; rfl
  | cons b rest ih =>
    intro msgs elapsed outs houts hlen
    cases outs with
    | nil => simp at hlen
    | cons o os =>
      have hrec := ih msgs elapsed os (fun o' ho' => houts o' (List.mem_cons_of_mem _ ho'))
        (by simpa using hlen)
      rcases houts o (List.mem_cons_self _ _) with rfl | rfl <;>
        simp [runBatches, hrec]

theorem clean_messages_empty (lockTimeout batchSize lockWait : Nat) (u : UserState)
    (cf : List MessageContext) (ids : List Nat) (excl : Bool) (outs : List DeleteOutcome)
    (hwait : lockWait < lockTimeout)
    (hempty : computeDeletionSet u cf ids excl = []) :
    clean_messages lockTimeout batchSize lockWait u cf ids excl outs =
      { u := u, sent := [], lockTaken := true, timedOut := false } := by
  unfold clean_messages
  rw [if_neg (Nat.not_le.2 hwait)]
  simp [hempty]

theorem clean_messages_no_success (lockTimeout batchSize lockWait : Nat) (u : UserState)
    (cf : List MessageContext) (ids : List Nat) (excl : Bool) (outs : List DeleteOutcome)
    (hwait : lockWait < lockTimeout)
    (houts : ∀ o ∈ outs, o = DeleteOutcome.forbidden ∨ o = DeleteOutcome.invalidId)
    (hlen : (chunks batchSize (computeDeletionSet u cf ids excl)).length ≤ outs.length) :
    (clean_messages lockTimeout batchSize lockWait u cf ids excl outs).u.messagesRow =
      u.messagesRow ∧
    (clean_messages lockTimeout batchSize lockWait u cf ids excl outs).sent =
      chunks batchSize (computeDeletionSet u cf ids excl) ∧
    (clean_messages lockTimeout batchSize lockWait u cf ids excl outs).timedOut = false := by
  unfold clean_messages
  rw [if_neg (Nat.not_le.2 hwait)]
  by_cases hds : (computeDeletionSet u cf ids excl).isEmpty
  · have hnil : computeDeletionSet u cf ids excl = [] := by
      simpa [List.isEmpty_iff] using hds
    simp [hds, hnil, chunks, chunksAux]
  · simp only [hds, Bool.false_eq_true, if_false]
    rw [runBatches_no_success lockTimeout _ _ _ _ houts hlen]
    exact ⟨rfl, rfl, rfl⟩

/-! ### Concrete fixtures used by scenario theorems, counterexamples and witnesses -/

/-- Spec scenario state: MENU id 1 (the current menu), COMMAND id 2, TEMP id 3, chat 7. -/
def menuScenario : UserState :=
  { messagesRow := some [(1, ⟨1, MessageContext.MENU, 7, 10, none, []⟩),
      (2, ⟨2, MessageContext.COMMAND, 7, 11, none, []⟩),
      (3, ⟨3, MessageContext.TEMP, 7, 12, none, []⟩)]
    current_menu := some 1
    last_activity := some 12 }

/-- A state tracking two TEMP messages (ids 1, 2) with no current menu. -/
def twoTempState : UserState :=
  { messagesRow := some [(1, ⟨1, MessageContext.TEMP, 7, 10, none, []⟩),
      (2, ⟨2, MessageContext.TEMP, 7, 11, none, []⟩)]
    current_menu := none
    last_activity := some 11 }

/-- A state whose current menu is message 5, tracked with context MENU. -/
def menuFiveState : UserState :=
  { messagesRow := some [(5, ⟨5, MessageContext.MENU, 7, 10, none, []⟩)]
    current_menu := some 5
    last_activity := some 10 }

/-- Message ids 1..51: one more than one transport batch at the default batch size 50. -/
def fiftyOneIds : List Nat := (List.range 51).map (· + 1)

/-- A state tracking TEMP messages with ids 1..51. -/
def fiftyOneState : UserState :=
  { messagesRow := some ((List.range 51).map fun i =>
      (i + 1, ⟨i + 1, MessageContext.TEMP, 7, i, none, []⟩))
    current_menu := none
    last_activity := some 0 }

/-- Global engine state with a single user 42, last active at time 0. -/
def oneUserGlobal : GlobalState :=
  { messages := [(42, [])]
    current_menu := []
    auth_state := []
    last_activity := [(42, 0)]
    cleanup_locks := [42]
    redisKeys := [42] }

theorem track_message_cascades (cap : Nat) (u : UserState) (e : TrackEvent) :
    (track_message cap u e).2 =
      (if e.ctx = MessageContext.MENU then
        match u.current_menu with
        | some oldMenu => if oldMenu ≠ 0 then [Cascade.menuClean e.chatId] else []
        | none => []
       else []) ++
      (if e.ctx = MessageContext.COMMAND then [Cascade.commandClean e.chatId e.msgId]
       else []) := rfl

/-! ### Claim theorems -/

/-- Claim C1 (cap invariant): for every cap and every sequence of `track_message`
calls for one user starting from the untracked state, after each call the number of
tracked messages is at most the cap; and whenever the insert pushes the count over
the cap, the oldest-by-timestamp eviction brings it back to exactly the cap. -/
theorem cap_invariant (cap : Nat) (evs : List TrackEvent) :
    trackedCount (runTrack cap emptyUser evs) ≤ cap ∧
    (∀ e : TrackEvent,
      cap < (dictInsert e.msgId (mkTracker e)
        ((runTrack cap emptyUser evs).messagesRow.getD [])).length →
      trackedCount (runTrack cap emptyUser (evs ++ [e])) = cap) := by
  have hnodup := runTrack_nodup cap evs emptyUser emptyUser_nodup
  refine ⟨runTrack_count_le cap evs emptyUser emptyUser_nodup
    (by simp [trackedCount, emptyUser]), ?_⟩
  intro e hover
  rw [runTrack_append_single]
  unfold trackedCount
  rw [track_message_messagesRow, if_pos hover]
  simpa using pruneOldMessages_length cap _ (nodup_keysOf_dictInsert hnodup) hover

/-- Witness for the cap invariant: with cap 1, after tracking id 1 the insert of id 2
overflows the cap and the state ends with exactly 1 tracked message. -/
theorem cap_invariant_witness :
    1 < (dictInsert 2 (mkTracker ⟨11, 2, 7, MessageContext.TEMP, []⟩)
      ((runTrack 1 emptyUser [⟨10, 1, 7, MessageContext.TEMP, []⟩]).messagesRow.getD
        [])).length ∧
    trackedCount (runTrack 1 emptyUser
      [⟨10, 1, 7, MessageContext.TEMP, []⟩, ⟨11, 2, 7, MessageContext.TEMP, []⟩]) = 1 :=
  ⟨by decide, (cap_invariant 1 [⟨10, 1, 7, MessageContext.TEMP, []⟩]).2
    ⟨11, 2, 7, MessageContext.TEMP, []⟩ (by decide)⟩

/-- Claim C2 (exclusion correctness): for every user state whose `current_menu_id`
is set to a nonzero (truthy) message id, the deletion set computed by
`clean_messages` with `exclude_current_menu = true` never contains it, whatever the
context filter and the explicit message ids; and on the spec's concrete scenario —
MENU id 1 as current menu, COMMAND id 2, TEMP id 3, filter {MENU, TEMP} — the
deletion set is exactly {3}. -/
theorem exclusion_correctness :
    (∀ (u : UserState) (cf : List MessageContext) (ids : List Nat) (cm : Nat),
      u.current_menu = some cm → cm ≠ 0 →
      cm ∉ computeDeletionSet u cf ids true) ∧
    computeDeletionSet menuScenario [MessageContext.MENU, MessageContext.TEMP] []
      true = [3] := by
  refine ⟨fun u cf ids cm hmenu h0 =>
    computeDeletionSet_not_mem_menu u cf ids cm hmenu h0, ?_⟩
  decide

/-- Witness for exclusion correctness: current menu 1 stays out of the deletion set
even when explicitly passed in `message_ids` together with a matching filter. -/
theorem exclusion_correctness_witness :
    menuScenario.current_menu = some 1 ∧ (1 : Nat) ≠ 0 ∧
    (1 : Nat) ∉ computeDeletionSet menuScenario [MessageContext.MENU] [1] true :=
  ⟨rfl, by decide,
    exclusion_correctness.1 menuScenario [MessageContext.MENU] [1] 1 rfl (by decide)⟩

/-- Claim C3 as stated is false on the code: after a Forbidden (and likewise an
Invalid-ID) outcome on the batch {1, 2}, both trackers are still present in the
user's tracked-message map — the `except` clauses only log, and the dict deletion
happens exclusively in the success path. -/
theorem forbidden_keeps_tracking_counterexample :
    (clean_messages LOCK_TIMEOUT DELETION_BATCH_SIZE 0 twoTempState [] [1, 2] true
        [DeleteOutcome.forbidden]).u.messagesRow = twoTempState.messagesRow ∧
    (clean_messages LOCK_TIMEOUT DELETION_BATCH_SIZE 0 twoTempState [] [1, 2] true
        [DeleteOutcome.invalidId]).u.messagesRow = twoTempState.messagesRow ∧
    (dictLookup 1 ((clean_messages LOCK_TIMEOUT DELETION_BATCH_SIZE 0 twoTempState []
        [1, 2] true [DeleteOutcome.forbidden]).u.messagesRow.getD [])).isSome = true := by
  decide

/-- Claim C3 amended: on Forbidden and Invalid-ID outcomes the affected batch's ids
are logged and kept in the user's tracked-message map (tracking is dropped only on
success), and each batch is attempted exactly once in the pass — never retried. -/
theorem forbidden_invalid_keeps_tracking (lockTimeout batchSize lockWait : Nat)
    (u : UserState) (cf : List MessageContext) (ids : List Nat) (excl : Bool)
    (outs : List DeleteOutcome)
    (hwait : lockWait < lockTimeout)
    (houts : ∀ o ∈ outs, o = DeleteOutcome.forbidden ∨ o = DeleteOutcome.invalidId)
    (hlen : (chunks batchSize (computeDeletionSet u cf ids excl)).length ≤ outs.length) :
    (clean_messages lockTimeout batchSize lockWait u cf ids excl outs).u.messagesRow =
      u.messagesRow ∧
    (clean_messages lockTimeout batchSize lockWait u cf ids excl outs).sent =
      chunks batchSize (computeDeletionSet u cf ids excl) := by
  have h := clean_messages_no_success lockTimeout batchSize lockWait u cf ids excl outs
    hwait houts hlen
  exact ⟨h.1, h.2.1⟩

/-- Witness: a Forbidden outcome on the single batch {1, 2} leaves the two trackers
in place and the batch is sent exactly once. -/
theorem forbidden_invalid_keeps_tracking_witness :
    (0 : Nat) < LOCK_TIMEOUT ∧
    (clean_messages LOCK_TIMEOUT DELETION_BATCH_SIZE 0 twoTempState [] [1, 2] true
        [DeleteOutcome.forbidden]).u.messagesRow = twoTempState.messagesRow :=
  ⟨by decide,
    (forbidden_invalid_keeps_tracking LOCK_TIMEOUT DELETION_BATCH_SIZE 0 twoTempState
      [] [1, 2] true [DeleteOutcome.forbidden] (by decide)
      (by intro o ho; simp at ho; simp [ho]) (by decide)).1⟩

set_option maxRecDepth 4000 in
/-- Claim C4: the code contradicts its own comment ("Try to acquire cleanup lock
with timeout") — `asyncio.timeout(LOCK_TIMEOUT)` wraps the whole cleanup pass, so a
FloodWait sleep of 5 s is cancelled at the 3 s deadline and the second batch of the
same deletion set is never attempted; the rate-limited batch's ids do remain
tracked. -/
theorem floodwait_cancels_pass :
    (clean_messages LOCK_TIMEOUT DELETION_BATCH_SIZE 0 fiftyOneState [] fiftyOneIds
        true [DeleteOutcome.rateLimited 5]).timedOut = true ∧
    (clean_messages LOCK_TIMEOUT DELETION_BATCH_SIZE 0 fiftyOneState [] fiftyOneIds
        true [DeleteOutcome.rateLimited 5]).sent = [fiftyOneIds.take 50] ∧
    (clean_messages LOCK_TIMEOUT DELETION_BATCH_SIZE 0 fiftyOneState [] fiftyOneIds
        true [DeleteOutcome.rateLimited 5]).u.messagesRow = fiftyOneState.messagesRow := by
  decide

/-- Claim C5 as stated is false on the code: with an empty deletion set the per-user
cleanup lock IS acquired — the set is computed inside `_do_clean_messages`, which
already runs under the lock and the timeout; only the transport call is skipped. -/
theorem empty_set_lock_taken_counterexample :
    (clean_messages LOCK_TIMEOUT DELETION_BATCH_SIZE 0 twoTempState [] [] true
        []).lockTaken = true ∧
    (clean_messages LOCK_TIMEOUT DELETION_BATCH_SIZE 0 twoTempState [] [] true
        []).sent = [] := by
  decide

/-- Claim C5 amended: when the computed deletion set is empty, `clean_messages`
makes no transport call and leaves the state unchanged, but it does take (and
release) the user's cleanup lock, because the emptiness test runs under the lock. -/
theorem empty_deletion_set_behavior (lockTimeout batchSize lockWait : Nat)
    (u : UserState) (cf : List MessageContext) (ids : List Nat)
    (outs : List DeleteOutcome)
    (hwait : lockWait < lockTimeout)
    (hempty : computeDeletionSet u cf ids true = []) :
    clean_messages lockTimeout batchSize lockWait u cf ids true outs =
      { u := u, sent := [], lockTaken := true, timedOut := false } :=
  clean_messages_empty lockTimeout batchSize lockWait u cf ids true outs hwait hempty

/-- Witness: a no-filter, no-ids call on a tracked state takes the lock, sends
nothing and changes nothing. -/
theorem empty_deletion_set_behavior_witness :
    (0 : Nat) < LOCK_TIMEOUT ∧
    computeDeletionSet twoTempState [] [] true = [] ∧
    clean_messages LOCK_TIMEOUT DELETION_BATCH_SIZE 0 twoTempState [] [] true [] =
      { u := twoTempState, sent := [], lockTaken := true, timedOut := false } :=
  ⟨by decide, by decide,
    empty_deletion_set_behavior LOCK_TIMEOUT DELETION_BATCH_SIZE 0 twoTempState [] []
      [] (by decide) (by decide)⟩

/-- Claim C6 as stated is false on the code: re-tracking the current menu's own
message id (id 5) as MENU does schedule a menu-filtered cleanup cascade — the
guard is `if old_menu:`, with no comparison against the new message id. -/
theorem retrack_menu_cascade_counterexample :
    menuFiveState.current_menu = some 5 ∧
    (track_message 100 menuFiveState ⟨20, 5, 7, MessageContext.MENU, []⟩).2 =
      [Cascade.menuClean 7] := by
  decide

/-- Claim C6 amended: on a MENU-context `track_message`, a `{MENU}`-filtered
cleanup cascade is scheduled if and only if a previous current menu existed with a
truthy (nonzero) id — regardless of whether that id equals the newly tracked
message's id; with no previous menu, no cascade is scheduled. -/
theorem menu_cascade_condition (cap : Nat) (u : UserState) (e : TrackEvent)
    (hctx : e.ctx = MessageContext.MENU) :
    (u.current_menu = none → (track_message cap u e).2 = []) ∧
    (∀ m : Nat, u.current_menu = some m → m ≠ 0 →
      (track_message cap u e).2 = [Cascade.menuClean e.chatId]) := by
  have hcmd : ¬e.ctx = MessageContext.COMMAND := by rw [hctx]; decide
  rw [track_message_cascades cap u e, if_pos hctx, if_neg hcmd]
  constructor
  · intro hmenu
    rw [hmenu]
    rfl
  · intro m hmenu h0
    rw [hmenu]
    simp [h0]

/-- Witness: superseding menu 5 by a new menu message 6 schedules the cascade. -/
theorem menu_cascade_condition_witness :
    (⟨20, 6, 7, MessageContext.MENU, []⟩ : TrackEvent).ctx = MessageContext.MENU ∧
    menuFiveState.current_menu = some 5 ∧ (5 : Nat) ≠ 0 ∧
    (track_message 100 menuFiveState ⟨20, 6, 7, MessageContext.MENU, []⟩).2 =
      [Cascade.menuClean 7] :=
  ⟨rfl, rfl, by decide,
    (menu_cascade_condition 100 menuFiveState ⟨20, 6, 7, MessageContext.MENU, []⟩
      rfl).2 5 rfl (by decide)⟩

/-- Claim C7 (eviction order): for every user map with duplicate-free keys and
pairwise-distinct timestamps whose size exceeds the cap, pruning keeps exactly
`cap` entries, every kept entry was tracked before, every evicted entry is strictly
older than every kept one (whatever its context), and the pruning routine issues no
transport delete call. -/
theorem eviction_order (cap : Nat) (m : MsgMap)
    (hkeys : (keysOf m).Nodup)
    (hts : (m.map fun p => p.2.timestamp).Nodup)
    (hlen : cap < m.length) :
    (pruneOldMessages cap m).1.length = cap ∧
    (∀ q ∈ (pruneOldMessages cap m).1, q ∈ m) ∧
    (∀ p ∈ m, p ∉ (pruneOldMessages cap m).1 →
      ∀ q ∈ (pruneOldMessages cap m).1, p.2.timestamp < q.2.timestamp) ∧
    (pruneOldMessages cap m).2 = [] := by
  have hperm := List.perm_insertionSort tsLE m
  have hsnodup := nodup_keysOf_sorted hkeys
  refine ⟨pruneOldMessages_length cap m hkeys hlen, ?_, ?_, ?_⟩
  · intro q hq
    exact ((pruneOldMessages_mem cap m hkeys hlen q).1 hq).1
  · intro p hp hpnot q hq
    have hpkey : p.1 ∈ keysOf ((List.insertionSort tsLE m).take (m.length - cap)) := by
      by_contra hno
      exact hpnot ((pruneOldMessages_mem cap m hkeys hlen p).2 ⟨hp, hno⟩)
    obtain ⟨hq_mem, hq_key⟩ := (pruneOldMessages_mem cap m hkeys hlen q).1 hq
    obtain ⟨p', hp'', hp'k⟩ := mem_keysOf.1 hpkey
    have hp'srt : p' ∈ List.insertionSort tsLE m := List.mem_of_mem_take hp''
    have hpsrt : p ∈ List.insertionSort tsLE m := hperm.mem_iff.2 hp
    have hpp' : p' = p := List.inj_on_of_nodup_map hsnodup hp'srt hpsrt hp'k
    have hptake : p ∈ (List.insertionSort tsLE m).take (m.length - cap) := hpp' ▸ hp''
    have hqsrt : q ∈ List.insertionSort tsLE m := hperm.mem_iff.2 hq_mem
    have hq_app : q ∈ (List.insertionSort tsLE m).take (m.length - cap) ++
        (List.insertionSort tsLE m).drop (m.length - cap) := by
      rw [List.take_append_drop]
      exact hqsrt
    have hqdrop : q ∈ (List.insertionSort tsLE m).drop (m.length - cap) := by
      rcases List.mem_append.1 hq_app with h | h
      · exact absurd (mem_keysOf.2 ⟨q, h, rfl⟩) hq_key
      · exact h
    have hsorted : List.Sorted tsLE (List.insertionSort tsLE m) :=
      List.sorted_insertionSort tsLE m
    have hpw : List.Pairwise tsLE ((List.insertionSort tsLE m).take (m.length - cap) ++
        (List.insertionSort tsLE m).drop (m.length - cap)) := by
      rw [List.take_append_drop]
      exact hsorted
    have hle : p.2.timestamp ≤ q.2.timestamp :=
      (List.pairwise_append.1 hpw).2.2 p hptake q hqdrop
    have htsnodup : ((List.insertionSort tsLE m).map fun r => r.2.timestamp).Nodup :=
      ((hperm.map fun r => r.2.timestamp).nodup_iff).2 hts
    have hne : p.2.timestamp ≠ q.2.timestamp := by
      intro heq
      have hsplit : (((List.insertionSort tsLE m).take (m.length - cap)).map
          (fun r => r.2.timestamp) ++
          ((List.insertionSort tsLE m).drop (m.length - cap)).map
          (fun r => r.2.timestamp)).Nodup := by
        rw [← List.map_append, List.take_append_drop]
        exact htsnodup
      exact List.disjoint_of_nodup_append hsplit
        (List.mem_map_of_mem _ hptake) (heq ▸ List.mem_map_of_mem _ hqdrop)
    exact Nat.lt_of_le_of_ne hle hne
  · rw [pruneOldMessages_eq cap m hlen]

/-- Witness: with cap 1, a two-entry map with timestamps 10 and 5 prunes to exactly
one entry. -/
theorem eviction_order_witness :
    (keysOf [(1, ⟨1, MessageContext.TEMP, 7, 10, none, []⟩),
      (2, ⟨2, MessageContext.MENU, 7, 5, none, []⟩)]).Nodup ∧
    1 < ([(1, (⟨1, MessageContext.TEMP, 7, 10, none, []⟩ : MessageTracker)),
      (2, ⟨2, MessageContext.MENU, 7, 5, none, []⟩)] : MsgMap).length ∧
    (pruneOldMessages 1 [(1, ⟨1, MessageContext.TEMP, 7, 10, none, []⟩),
      (2, ⟨2, MessageContext.MENU, 7, 5, none, []⟩)]).1.length = 1 :=
  ⟨by decide, by decide,
    (eviction_order 1 [(1, ⟨1, MessageContext.TEMP, 7, 10, none, []⟩),
      (2, ⟨2, MessageContext.MENU, 7, 5, none, []⟩)] (by decide) (by decide)
      (by decide)).1⟩

/-- Claim C8 as stated is false on the code: tracking id 1 as MENU and then
re-tracking the same id 1 as TEMP (no eviction — only one entry, cap 100 — and no
newer MENU track) leaves `current_menu_id = 1` pointing at an entry whose context
is TEMP, not MENU. -/
theorem menu_reference_counterexample :
    (runTrack 100 emptyUser [⟨10, 1, 5, MessageContext.MENU, []⟩,
        ⟨11, 1, 5, MessageContext.TEMP, []⟩]).current_menu = some 1 ∧
    (dictLookup 1 ((runTrack 100 emptyUser [⟨10, 1, 5, MessageContext.MENU, []⟩,
        ⟨11, 1, 5, MessageContext.TEMP, []⟩]).messagesRow.getD [])).map
      MessageTracker.context = some MessageContext.TEMP ∧
    trackedCount (runTrack 100 emptyUser [⟨10, 1, 5, MessageContext.MENU, []⟩,
        ⟨11, 1, 5, MessageContext.TEMP, []⟩]) = 1 := by
  decide

/-- Claim C8 amended: immediately after a MENU-context `track_message` that does not
overflow the cap, `current_menu_id` is the newly tracked id and references its
MENU-context tracker; and over any sequence of `track_message` calls from the empty
state, `current_menu_id` equals the id of the most recent MENU-context call — but
the referenced entry may later be overwritten with a different context or deleted
by `clean_messages` without `current_menu_id` being cleared. -/
theorem menu_reference_amended :
    (∀ (cap : Nat) (u : UserState) (e : TrackEvent),
      e.ctx = MessageContext.MENU →
      (dictInsert e.msgId (mkTracker e) (u.messagesRow.getD [])).length ≤ cap →
      ((track_message cap u e).1).current_menu = some e.msgId ∧
      dictLookup e.msgId (((track_message cap u e).1).messagesRow.getD []) =
        some (mkTracker e)) ∧
    (∀ (cap : Nat) (evs : List TrackEvent),
      (runTrack cap emptyUser evs).current_menu = lastMenuId evs) := by
  constructor
  · intro cap u e hctx hle
    constructor
    · rw [track_message_current_menu, if_pos hctx]
    · rw [track_message_messagesRow, if_neg (Nat.not_lt.2 hle)]
      simpa using dictLookup_dictInsert_self e.msgId (mkTracker e)
        (u.messagesRow.getD [])
  · intro cap evs
    rw [runTrack_current_menu]
    simp [emptyUser]

/-- Witness: tracking id 1 as MENU on the empty state under cap 100 sets the
current menu to 1 with a MENU tracker behind it. -/
theorem menu_reference_amended_witness :
    (⟨10, 1, 5, MessageContext.MENU, []⟩ : TrackEvent).ctx = MessageContext.MENU ∧
    (dictInsert 1 (mkTracker ⟨10, 1, 5, MessageContext.MENU, []⟩)
      (emptyUser.messagesRow.getD [])).length ≤ 100 ∧
    ((track_message 100 emptyUser ⟨10, 1, 5, MessageContext.MENU, []⟩).1).current_menu
      = some 1 :=
  ⟨rfl, by decide,
    (menu_reference_amended.1 100 emptyUser ⟨10, 1, 5, MessageContext.MENU, []⟩ rfl
      (by decide)).1⟩

/-- Claim C9: the periodic inactivity sweep self-deadlocks on the first inactive
user — `_cleanup_inactive_users` holds `self._state_lock` and awaits
`clear_user_data`, which re-acquires the same non-reentrant `asyncio.Lock`; the
sweep never terminates and removes no state (`none` in the model), while with no
inactive user it completes having removed nothing. -/
theorem inactivity_sweep_deadlock :
    cleanupInactiveUsers 7200 INACTIVE_THRESHOLD_SECONDS oneUserGlobal = none ∧
    cleanupInactiveUsers 100 INACTIVE_THRESHOLD_SECONDS oneUserGlobal =
      some oneUserGlobal := by
  decide

/-- Claim C10 (serialization round trip): for every tracker,
`from_dict (to_dict t)` restores `message_id`, `context`, `chat_id`, `timestamp`
and `metadata` exactly, with the unserialized `weak_ref` coming back as `None`. -/
theorem tracker_serialization_roundtrip (t : MessageTracker) :
    MessageTracker.from_dict (MessageTracker.to_dict t) =
      some { t with weak_ref := none } := by
  obtain ⟨i, c, chat, ts, wr, md⟩ := t
  cases c <;> rfl

end ArkanisBot
